import Mathlib

/-!
Verification development for the `seller` Telegram sales-bot repository
(`src/bot.py`).  Python strings are embedded as `List Char`, Python dicts
(which preserve insertion order) as association lists, and the handlers of
`bot.py` as pure functions over these.  Each claim about the spec is settled
by a theorem at the end of the file.
-/

/-- Python strings are modelled as lists of characters. -/
abbrev Str := List Char

/-! ### Decimal rendering and parsing (Python `str(int)` / `int(str)`) -/

/-- The character for a single decimal digit (`n < 10`). -/
def digitChar (n : Nat) : Char :=
  if n = 0 then '0' else if n = 1 then '1' else if n = 2 then '2'
  else if n = 3 then '3' else if n = 4 then '4' else if n = 5 then '5'
  else if n = 6 then '6' else if n = 7 then '7' else if n = 8 then '8' else '9'

/-- Fuel-driven decimal rendering; with fuel `> n` it renders `n` in decimal,
exactly as Python's `str` does on a non-negative int. -/
def natDigitsAux : Nat → Nat → Str
  | 0, _ => []
  | fuel + 1, n =>
    if n < 10 then [digitChar n]
    else natDigitsAux fuel (n / 10) ++ [digitChar (n % 10)]

/-- Decimal rendering of a natural number, the embedding of Python `str(n)`. -/
def natDigits (n : Nat) : Str := natDigitsAux (n + 1) n

/-- Decimal rendering of an integer, the embedding of Python `str(i)`. -/
def intDigits (i : Int) : Str :=
  if i < 0 then '-' :: natDigits i.natAbs else natDigits i.toNat

/-- Is `c` an ASCII decimal digit? -/
def isDigitChar (c : Char) : Bool := 48 ≤ c.toNat && c.toNat ≤ 57

/-- The value of an ASCII digit character, `none` on other characters. -/
def digitVal? (c : Char) : Option Nat :=
  if 48 ≤ c.toNat ∧ c.toNat ≤ 57 then some (c.toNat - 48) else none

/-- Digit-run parser for Python `int`: after the first digit, single
underscores are allowed between digits. `acc` is the value read so far. -/
def pyDigits : Str → Nat → Option Nat
  | [], acc => some acc
  | c :: rest, acc =>
    if c = '_' then
      match rest with
      | [] => none
      | c2 :: rest2 =>
        match digitVal? c2 with
        | some d => pyDigits rest2 (acc * 10 + d)
        | none => none
    else
      match digitVal? c with
      | some d => pyDigits rest (acc * 10 + d)
      | none => none

/-- Parses the unsigned body of a Python int literal: a leading digit followed
by digits with optional single interior underscores. -/
def pyIntBody : Str → Option Nat
  | [] => none
  | c :: rest =>
    match digitVal? c with
    | some d => pyDigits rest d
    | none => none

/-- ASCII whitespace stripped by Python's `int()`. -/
def isPySpace (c : Char) : Bool :=
  c = ' ' || c = '\t' || c = '\n' || c = '\r' || c = '\x0b' || c = '\x0c'

/-- Strip leading and trailing whitespace. -/
def stripSpaces (l : Str) : Str :=
  ((l.dropWhile isPySpace).reverse.dropWhile isPySpace).reverse

/-- The embedding of Python `int(s)`: `some i` when the call succeeds with
value `i`, `none` when it raises `ValueError`. -/
def pythonInt (l : Str) : Option Int :=
  match stripSpaces l with
  | [] => none
  | c :: rest =>
    if c = '-' then (pyIntBody rest).map (fun n => -(n : Int))
    else if c = '+' then (pyIntBody rest).map (fun n => (n : Int))
    else (pyIntBody (c :: rest)).map (fun n => (n : Int))

/-- Left-fold decimal evaluation of a digit string. -/
def valDigits (l : Str) (acc : Nat) : Nat :=
  l.foldl (fun a c => a * 10 + (c.toNat - 48)) acc

/-! ### Admin relay: id marker, extraction, message composition (bot.py 429-504) -/

/-- The fixed id marker `"(ID: "` used by `reply_to_user` (bot.py line 473). -/
def marker : Str := ['(', 'I', 'D', ':', ' ']

/-- The backquote character removed by `.replace` in `reply_to_user` line 476. -/
def backquote : Char := Char.ofNat 96

/-- Splits a list around the first occurrence of `pat`: `some (before, after)`
when `pat` occurs, `none` otherwise.  Mirrors the behaviour of Python
`s.split(pat)` restricted to the first two fields. -/
def findSplit (pat : Str) : Str → Option (Str × Str)
  | [] => none
  | c :: rest =>
    if pat.isPrefixOf (c :: rest) then some ([], (c :: rest).drop pat.length)
    else (findSplit pat rest).map (fun p => (c :: p.1, p.2))

/-- The embedding of Python `pat in s` (for nonempty `pat`). -/
def containsSub (pat l : Str) : Bool := (findSplit pat l).isSome

/-- The id extraction of `reply_to_user` (bot.py line 476):
`text.split("(ID: ")[1].split(")")[0].replace(backquote, "")` fed to `int`.
`split("(ID: ")[1]` is the segment between the first and second occurrence of
the marker; `split(")")[0]` truncates at the first close paren. -/
def extract_user_id (t : Str) : Option Int :=
  match findSplit marker t with
  | none => none
  | some p =>
    let seg :=
      match findSplit marker p.2 with
      | some q => q.1
      | none => p.2
    pythonInt ((seg.takeWhile (fun c => c != ')')).filter (fun c => c != backquote))

/-- Message sent to the user on a successful admin reply (bot.py line 480). -/
def admin_reply_text (msg : Str) : Str :=
  "Admin replied:\n\n".toList ++ msg
    ++ "\n\n---\n*You can reply to this message to continue the conversation.*".toList

/-- Observable outcome of the admin-reply handler. -/
inductive ReplyAction where
  /-- A message `body` is sent to user id `uid` and success is confirmed. -/
  | deliver (uid : Int) (body : Str)
  /-- The admin gets the message that no valid user ID could be extracted. -/
  | parse_error
  /-- The admin gets the message that the reply target is not a forward. -/
  | not_forwarded
deriving DecidableEq, Repr

/-- The embedding of `reply_to_user` (bot.py 461-487) on the text (or caption)
of the replied-to message.  `none` models a replied-to message with neither
text nor caption. -/
def reply_to_user (origText : Option Str) (adminMsg : Str) : ReplyAction :=
  match origText with
  | none => ReplyAction.not_forwarded
  | some t =>
    if containsSub marker t then
      match extract_user_id t with
      | some uid => ReplyAction.deliver uid (admin_reply_text adminMsg)
      | none => ReplyAction.parse_error
    else ReplyAction.not_forwarded

/-- Fixed head of the text forwarded by `forward_to_admin` (bot.py 437); the
unusual characters are the exact bytes of the source file. -/
def forwardHead : Str := "üì© New message from user: ".toList

/-- Fixed head of the caption composed by `forward_screenshot_to_admin`
(bot.py 452), again with the source file's exact characters. -/
def screenshotHead : Str := "üì∏ New payment screenshot from: ".toList

/-- Fixed head of the text composed by `handle_user_reply` (bot.py 499). -/
def followupHead : Str := "‚Ü™Ô∏è Follow-up message from ".toList

/-- Everything before the id marker in `forward_to_admin`'s message:
head, first name, space, last name (`user.last_name or ''`), space. -/
def forwardPre (first lastName : Str) : Str :=
  forwardHead ++ first ++ [' '] ++ lastName ++ [' ']

/-- Everything before the id marker in the screenshot caption. -/
def screenshotPre (first lastName : Str) : Str :=
  screenshotHead ++ first ++ [' '] ++ lastName ++ [' ']

/-- Everything before the id marker in the follow-up forward. -/
def followupPre (first : Str) : Str := followupHead ++ first ++ [' ']

/-- The text `forward_to_admin` sends to the admin (bot.py 436-440):
head, names, `(ID: <digits>)`, course line, message payload. -/
def forward_text (first lastName : Str) (uid : Nat) (courseName msgText : Str) : Str :=
  forwardPre first lastName ++ marker ++ natDigits uid ++ [')']
    ++ "\nRegarding course: ".toList ++ courseName ++ "\n\nMessage:\n".toList ++ msgText

/-- The caption `forward_screenshot_to_admin` attaches (bot.py 451-455); the
user id is wrapped in backquotes: `(ID: `digits`)`. -/
def screenshot_caption (first lastName : Str) (uid : Nat) (courseName : Str) : Str :=
  screenshotPre first lastName ++ marker ++ [backquote] ++ natDigits uid ++ [backquote]
    ++ [')'] ++ "\nFor course: **".toList ++ courseName
    ++ "**\n\nReply to this message to send the course link to the user.".toList

/-- The text `handle_user_reply` forwards to the admin (bot.py 499). -/
def followup_text (first : Str) (uid : Nat) (msgText : Str) : Str :=
  followupPre first ++ marker ++ natDigits uid ++ [')'] ++ ":\n\n".toList ++ msgText

/-! ### Catalog data model and admin commands (bot.py 213-311) -/

/-- A course record `{name, price, status}` as stored in `GLOBAL_COURSES`. -/
structure Course where
  name : Str
  price : Int
  status : Str
deriving DecidableEq, Repr

/-- `GLOBAL_COURSES`: a Python dict, i.e. an insertion-ordered association
list from course key to course record. -/
abbrev Catalog := List (Str × Course)

/-- Python `k in d` on a dict modelled as an association list. -/
def dhas {α : Type} (l : List (Str × α)) (k : Str) : Bool :=
  l.any (fun e => e.1 == k)

/-- Python `d[k]` lookup (`none` when the key is absent). -/
def dget {α : Type} (l : List (Str × α)) (k : Str) : Option α :=
  (l.find? (fun e => e.1 == k)).map Prod.snd

/-- Python `d[k] = v`: update in place when the key exists (dict order is
preserved), append a new entry otherwise. -/
def dput {α : Type} (l : List (Str × α)) (k : Str) (v : α) : List (Str × α) :=
  if dhas l k then l.map (fun e => if e.1 == k then (e.1, v) else e)
  else l ++ [(k, v)]

/-- Python `del d[k]`. -/
def derase {α : Type} (l : List (Str × α)) (k : Str) : List (Str × α) :=
  l.filter (fun e => e.1 != k)

/-- Is `c` in `[a-z0-9]`, the class kept by the slug regex (bot.py 242)? -/
def isSlugChar (c : Char) : Bool :=
  (97 ≤ c.toNat && c.toNat ≤ 122) || (48 ≤ c.toNat && c.toNat ≤ 57)

/-- Python `str.lower()` on one character (ASCII case mapping). -/
def pyToLower (c : Char) : Char :=
  if 65 ≤ c.toNat ∧ c.toNat ≤ 90 then Char.ofNat (c.toNat + 32) else c

/-- Python `str.lower()`. -/
def pyLower (l : Str) : Str := l.map pyToLower

/-- The effect of `re.sub` with pattern `[^a-z0-9]+` and replacement
underscore: every maximal run of non-slug characters becomes one underscore.
`prevSep` records whether the previous character was part of such a run. -/
def collapseAux : Bool → Str → Str
  | _, [] => []
  | prevSep, c :: rest =>
    if isSlugChar c then c :: collapseAux false rest
    else if prevSep then collapseAux true rest
    else '_' :: collapseAux true rest

/-- Python `.strip` with an underscore argument. -/
def stripUnder (l : Str) : Str :=
  ((l.dropWhile (fun c => c == '_')).reverse.dropWhile (fun c => c == '_')).reverse

/-- The slug of a course name (bot.py 242): lowercase, collapse non-slug
runs to single underscores, strip edge underscores. -/
def slug (name : Str) : Str := stripUnder (collapseAux false (pyLower name))

/-- The candidate key `f"{original_key}_{counter}"` of the collision loop. -/
def candKey (base : Str) (i : Nat) : Str := base ++ '_' :: natDigits i

/-- The collision loop of `add_course` (bot.py 247-251), fuel-driven: try
`base_ctr`, `base_(ctr+1)`, ... returning the first free candidate.  The
fuel-exhausted branch returns the current candidate unchecked; with fuel
`|catalog| + 1` it is never reached (see `freshFrom_not_has`). -/
def freshFrom (c : Catalog) (base : Str) : Nat → Nat → Str
  | ctr, 0 => candKey base ctr
  | ctr, fuel + 1 =>
    if dhas c (candKey base ctr) then freshFrom c base (ctr + 1) fuel
    else candKey base ctr

/-- Key disambiguation of `add_course`: the base key if free, otherwise the
first free `base_<n>`. -/
def uniqueKey (c : Catalog) (base : Str) : Str :=
  if dhas c base then freshFrom c base 1 (c.length + 1) else base

/-- The literal status `available`. -/
def statusAvailable : Str := "available".toList

/-- The literal status `coming_soon`. -/
def statusComingSoon : Str := "coming_soon".toList

/-- Observable outcome of `/addcourse` after argument splitting. -/
inductive AddOutcome where
  /-- Invalid-status error is sent back; nothing changes. -/
  | invalidStatus
  /-- Invalid-price error is sent back; nothing changes. -/
  | invalidPrice
  /-- The success message names the generated `key`. -/
  | added (key : Str)
deriving DecidableEq, Repr

/-- The key `add_course` generates (bot.py 241-251): the slug of the name,
falling back to `course_<n>` for an empty slug, then disambiguated against
the existing keys. -/
def addKey (c : Catalog) (name : Str) : Str :=
  uniqueKey c
    (if slug name = [] then "course_".toList ++ natDigits (c.length + 1)
     else slug name)

/-- The embedding of `add_course` (bot.py 213-255) applied to the three
semicolon-separated parts name, price and status. -/
def add_course (c : Catalog) (name priceStr statusStr : Str) : AddOutcome × Catalog :=
  let status := pyLower statusStr
  if status ≠ statusAvailable ∧ status ≠ statusComingSoon then
    (AddOutcome.invalidStatus, c)
  else
    match pythonInt priceStr with
    | none => (AddOutcome.invalidPrice, c)
    | some price =>
      if price < 0 then (AddOutcome.invalidPrice, c)
      else
        let key := addKey c name
        (AddOutcome.added key, dput c key (Course.mk name price status))

/-- Observable outcome of `/editcourse` after argument splitting. -/
inductive EditOutcome where
  /-- Key-not-found error; nothing changes. -/
  | notFound
  /-- Invalid-status error; nothing changes. -/
  | invalidStatus
  /-- Invalid-price error; nothing changes. -/
  | invalidPrice
  /-- The course record under the key was overwritten. -/
  | updated
deriving DecidableEq, Repr

/-- The embedding of `edit_course` (bot.py 257-291): key presence is checked
first, then status, then price; on success all three fields are overwritten
in place. -/
def edit_course (c : Catalog) (key name priceStr statusStr : Str) :
    EditOutcome × Catalog :=
  let status := pyLower statusStr
  if dhas c key = false then (EditOutcome.notFound, c)
  else if status ≠ statusAvailable ∧ status ≠ statusComingSoon then
    (EditOutcome.invalidStatus, c)
  else
    match pythonInt priceStr with
    | none => (EditOutcome.invalidPrice, c)
    | some price =>
      if price < 0 then (EditOutcome.invalidPrice, c)
      else (EditOutcome.updated, dput c key (Course.mk name price status))

/-- Observable outcome of `/delcourse`. -/
inductive DelOutcome where
  /-- Key-not-found error; nothing changes. -/
  | notFound
  /-- The entry was removed. -/
  | deleted
deriving DecidableEq, Repr

/-- The embedding of `delete_course` (bot.py 293-311): the key argument is
lowercased before the lookup. -/
def delete_course (c : Catalog) (keyArg : Str) : DelOutcome × Catalog :=
  let k := pyLower keyArg
  if dhas c k = false then (DelOutcome.notFound, c)
  else (DelOutcome.deleted, derase c k)

/-! ### Character-set invariants of generated keys -/

/-- A character that can appear in a key `add_course` generates:
`[a-z0-9]` or underscore. -/
def isKeyChar (c : Char) : Bool := isSlugChar c || c == '_'

/-! ### Roster, stats, conversation flow, broadcast (bot.py 66-74, 337-426, 506-535) -/

/-- `BOT_STATS`: `{"total_users": ..., "course_views": {...}}`. -/
structure BotStats where
  total_users : Nat
  course_views : List (Str × Nat)
deriving DecidableEq, Repr

/-- The embedding of `save_user_id` (bot.py 66-74): `lines` are the lines of
`user_ids.txt`; a new id is appended and `total_users` is set to the previous
line count plus one, otherwise nothing changes. -/
def save_user_id (lines : List Str) (stats : BotStats) (uid : Nat) :
    List Str × BotStats :=
  if natDigits uid ∈ lines then (lines, stats)
  else (lines ++ [natDigits uid], { stats with total_users := lines.length + 1 })

/-- `BOT_STATS["course_views"].get(key, 0)`. -/
def viewsGet (v : List (Str × Nat)) (k : Str) : Nat := (dget v k).getD 0

/-- The embedding of `course_selection_callback` (bot.py 337-369) restricted
to its state effect: when the pressed key is in the catalog the course is
selected and its view counter incremented (for both statuses); otherwise
nothing changes.  The conversation stays in `SELECTING_ACTION` either way. -/
def course_selection_callback (cat : Catalog) (stats : BotStats)
    (sel : Option Course) (key : Str) : BotStats × Option Course :=
  match dget cat key with
  | some course =>
    ({ stats with
        course_views := dput stats.course_views key (viewsGet stats.course_views key + 1) },
      some course)
  | none => (stats, sel)

/-- A sequence of course-selection button presses. -/
def applySelections (cat : Catalog) (p : BotStats × Option Course)
    (keys : List Str) : BotStats × Option Course :=
  keys.foldl (fun st k => course_selection_callback cat st.1 st.2 k) p

/-- Conversation states (bot.py 148): `SELECTING_ACTION`, `FORWARD_TO_ADMIN`
(the spec's `AWAITING_ADMIN_MESSAGE`), `FORWARD_SCREENSHOT` (the spec's
`AWAITING_SCREENSHOT`) and `ConversationHandler.END`. -/
inductive ConvState where
  /-- `SELECTING_ACTION` -/
  | selecting_action
  /-- `FORWARD_TO_ADMIN`, i.e. awaiting the message for the admin -/
  | forward_to_admin
  /-- `FORWARD_SCREENSHOT`, i.e. awaiting the payment screenshot -/
  | forward_screenshot
  /-- `ConversationHandler.END`, the terminal state -/
  | conv_end
deriving DecidableEq, Repr

/-- What `handle_action` shows in the chat. -/
inductive ActionView where
  /-- A plain message with the given text. -/
  | message (text : Str)
  /-- The `BUY_COURSE_TEXT` payment view rendered for `course` (its markdown
  body is not needed by any claim, so it is kept symbolic). -/
  | buyView (course : Course)
deriving DecidableEq, Repr

/-- Error text of bot.py line 397. -/
def sessionErrorMsg : Str :=
  "Something went wrong. Please start over by sending /start".toList

/-- Prompt of bot.py line 401. -/
def talkAdminPrompt : Str :=
  "Please type your message and send it. I will forward it to the admin.".toList

/-- Prompt of bot.py line 419. -/
def screenshotPrompt : Str :=
  "Please send the screenshot of your payment now.".toList

/-- The embedding of `handle_action` (bot.py 390-420): with no selected
course every action aborts to the terminal state; otherwise the three button
actions lead to their views and states; `none` models the handler falling
through (unmatched action, unreachable under the registered patterns). -/
def handle_action (sel : Option Course) (action : Str) :
    Option (ConvState × ActionView) :=
  match sel with
  | none => some (ConvState.conv_end, ActionView.message sessionErrorMsg)
  | some course =>
    if action = "talk_admin".toList then
      some (ConvState.forward_to_admin, ActionView.message talkAdminPrompt)
    else if action = "buy_course".toList then
      some (ConvState.selecting_action, ActionView.buyView course)
    else if action = "share_screenshot".toList then
      some (ConvState.forward_screenshot, ActionView.message screenshotPrompt)
    else none

/-- Does the per-recipient body of the broadcast loop fail for this roster
line?  It fails when the line does not parse as an int or when the send to
the parsed chat id raises (`sendOk` is the delivery oracle). -/
def sendFails (sendOk : Int → Bool) (uid : Str) : Bool :=
  match pythonInt uid with
  | some n => !sendOk n
  | none => true

/-- The embedding of the `broadcast` loop (bot.py 524-533): fold over the
roster lines, counting sent and failed deliveries. -/
def broadcast (userIds : List Str) (sendOk : Int → Bool) : Nat × Nat :=
  userIds.foldl
    (fun counts uid =>
      if sendFails sendOk uid then (counts.1, counts.2 + 1)
      else (counts.1 + 1, counts.2))
    (0, 0)

/-! ### Claim theorems -/

set_option maxRecDepth 200000

theorem digitChar_toNat {n : Nat} (h : n < 10) : (digitChar n).toNat = 48 + n := by
  interval_cases n <;> decide

theorem digitChar_isDigit {n : Nat} (h : n < 10) : isDigitChar (digitChar n) = true := by
  interval_cases n <;> decide

theorem natDigitsAux_ne_nil {fuel n : Nat} (h : n < fuel) :
    natDigitsAux fuel n ≠ [] := by
  cases fuel with
  | zero => omega
  | succ f =>
    unfold natDigitsAux
    split
    · simp
    · simp

theorem natDigitsAux_digits {fuel n : Nat} (h : n < fuel) :
    ∀ c ∈ natDigitsAux fuel n, isDigitChar c = true := by
  induction fuel generalizing n with
  | zero => omega
  | succ f ih =>
    unfold natDigitsAux
    split
    · next h10 =>
      intro c hc
      simp only [List.mem_singleton] at hc
      subst hc
      exact digitChar_isDigit h10
    · next h10 =>
      intro c hc
      have hlt : n / 10 < f := by
        have : n / 10 < n := Nat.div_lt_self (by omega) (by omega)
        omega
      rcases List.mem_append.mp hc with hc' | hc'
      · exact ih hlt c hc'
      · simp only [List.mem_singleton] at hc'
        subst hc'
        exact digitChar_isDigit (Nat.mod_lt _ (by omega))

theorem valDigits_append_singleton (l : Str) (c : Char) (acc : Nat) :
    valDigits (l ++ [c]) acc = (valDigits l acc) * 10 + (c.toNat - 48) := by
  simp [valDigits, List.foldl_append]

theorem natDigitsAux_val {fuel n : Nat} (h : n < fuel) (acc : Nat) :
    valDigits (natDigitsAux fuel n) acc =
      acc * 10 ^ (natDigitsAux fuel n).length + n := by
  induction fuel generalizing n acc with
  | zero => omega
  | succ f ih =>
    unfold natDigitsAux
    split
    · next h10 =>
      simp [valDigits, digitChar_toNat h10]
    · next h10 =>
      have hlt : n / 10 < f := by
        have : n / 10 < n := Nat.div_lt_self (by omega) (by omega)
        omega
      rw [valDigits_append_singleton, ih hlt acc,
        digitChar_toNat (Nat.mod_lt _ (by omega : 0 < 10))]
      have hmod : n % 10 + 48 - 48 = n % 10 := by omega
      rw [List.length_append, List.length_singleton, pow_succ]
      have := Nat.div_add_mod n 10
      ring_nf
      omega

theorem digit_ne_underscore {c : Char} (h : isDigitChar c = true) : c ≠ '_' := by
  intro hc
  subst hc
  simp [isDigitChar] at h

theorem pyDigits_all_digits (l : Str) (acc : Nat)
    (h : ∀ c ∈ l, isDigitChar c = true) :
    pyDigits l acc = some (valDigits l acc) := by
  induction l generalizing acc with
  | nil => simp [pyDigits, valDigits]
  | cons c rest ih =>
    have hc : isDigitChar c = true := h c (by simp)
    have hrest : ∀ x ∈ rest, isDigitChar x = true := fun x hx => h x (by simp [hx])
    have hcu : ¬ (c = '_') := digit_ne_underscore hc
    have hval : digitVal? c = some (c.toNat - 48) := by
      simp only [isDigitChar, Bool.and_eq_true, decide_eq_true_eq] at hc
      simp [digitVal?, hc.1, hc.2]
    rw [pyDigits.eq_def]
    simp only [if_neg hcu, hval]
    rw [ih _ hrest]
    simp [valDigits]

theorem pyIntBody_natDigits (n : Nat) : pyIntBody (natDigits n) = some n := by
  have hlt : n < n + 1 := Nat.lt_succ_self n
  have hne := natDigitsAux_ne_nil hlt
  have hdg := natDigitsAux_digits hlt
  have hval := natDigitsAux_val hlt
  unfold natDigits at *
  cases hd : natDigitsAux (n + 1) n with
  | nil => exact absurd hd hne
  | cons c rest =>
    have hc : isDigitChar c = true := by
      apply hdg
      rw [hd]; simp
    have hrest : ∀ x ∈ rest, isDigitChar x = true := by
      intro x hx
      apply hdg
      rw [hd]; simp [hx]
    have hcval : digitVal? c = some (c.toNat - 48) := by
      simp only [isDigitChar, Bool.and_eq_true, decide_eq_true_eq] at hc
      simp [digitVal?, hc.1, hc.2]
    simp only [pyIntBody, hcval]
    rw [pyDigits_all_digits _ _ hrest]
    have hv := hval 0
    rw [hd] at hv
    simp only [valDigits, List.foldl_cons, Nat.zero_mul, Nat.zero_add] at hv
    simp only [valDigits, hv]

theorem digit_not_space {c : Char} (h : isDigitChar c = true) : isPySpace c = false := by
  have h32 : c ≠ ' ' := by intro hc; rw [hc] at h; exact absurd h (by decide)
  have h9 : c ≠ '\t' := by intro hc; rw [hc] at h; exact absurd h (by decide)
  have h10 : c ≠ '\n' := by intro hc; rw [hc] at h; exact absurd h (by decide)
  have h13 : c ≠ '\r' := by intro hc; rw [hc] at h; exact absurd h (by decide)
  have h11 : c ≠ '\x0b' := by intro hc; rw [hc] at h; exact absurd h (by decide)
  have h12 : c ≠ '\x0c' := by intro hc; rw [hc] at h; exact absurd h (by decide)
  simp [isPySpace, h32, h9, h10, h13, h11, h12]

theorem stripSpaces_of_digits (l : Str) (h : ∀ c ∈ l, isDigitChar c = true) :
    stripSpaces l = l := by
  have h1 : l.dropWhile isPySpace = l := by
    cases l with
    | nil => simp
    | cons c rest =>
      rw [List.dropWhile_cons_of_neg]
      simp [digit_not_space (h c (by simp))]
  rw [stripSpaces, h1]
  have h2 : l.reverse.dropWhile isPySpace = l.reverse := by
    cases hr : l.reverse with
    | nil => simp
    | cons c rest =>
      rw [List.dropWhile_cons_of_neg]
      have hc : c ∈ l := by
        rw [← List.mem_reverse, hr]; simp
      simp [digit_not_space (h c hc)]
  rw [h2, List.reverse_reverse]

theorem pythonInt_natDigits (n : Nat) : pythonInt (natDigits n) = some (n : Int) := by
  have hlt : n < n + 1 := Nat.lt_succ_self n
  have hne := natDigitsAux_ne_nil hlt
  have hdg := natDigitsAux_digits hlt
  have hstrip : stripSpaces (natDigits n) = natDigits n :=
    stripSpaces_of_digits _ hdg
  have hbody := pyIntBody_natDigits n
  unfold pythonInt
  rw [hstrip]
  cases hd : natDigits n with
  | nil => exact absurd hd hne
  | cons c rest =>
    have hc : isDigitChar c = true := by
      apply hdg; rw [← natDigits, hd]; simp
    have hminus : ¬ (c = '-') := by
      intro hx; rw [hx] at hc; exact absurd hc (by decide)
    have hplus : ¬ (c = '+') := by
      intro hx; rw [hx] at hc; exact absurd hc (by decide)
    rw [hd] at hbody
    simp [hminus, hplus, hbody]

theorem natDigits_injective : Function.Injective natDigits := by
  intro a b hab
  have ha := pythonInt_natDigits a
  have hb := pythonInt_natDigits b
  rw [hab, hb] at ha
  simpa using ha.symm

theorem containsSub_tail {pat : Str} {c : Char} {l : Str}
    (h : containsSub pat (c :: l) = false) : containsSub pat l = false := by
  rw [containsSub, findSplit] at h
  by_cases hp : pat.isPrefixOf (c :: l) = true
  · rw [if_pos hp] at h
    simp at h
  · rw [if_neg hp] at h
    rw [containsSub]
    cases hfs : findSplit pat l with
    | none => rfl
    | some p =>
      rw [hfs] at h
      simp at h

theorem containsSub_of_pfx {pat l : Str} (hne : pat ≠ [])
    (h : pat.isPrefixOf l = true) : containsSub pat l = true := by
  cases l with
  | nil =>
    have hp := List.isPrefixOf_iff_prefix.mp h
    exact absurd (List.prefix_nil.mp hp) hne
  | cons c rest =>
    rw [containsSub, findSplit, if_pos h]
    rfl

theorem marker_not_pfx_of_clean {t rest : Str} (hne : t ≠ [])
    (h : containsSub marker t = false) :
    marker.isPrefixOf (t ++ (marker ++ rest)) = false := by
  by_contra hp
  rw [Bool.not_eq_false] at hp
  have hpre := List.isPrefixOf_iff_prefix.mp hp
  have hml : marker.length = 5 := by decide
  by_cases hlen : 5 ≤ t.length
  · have htpre : t <+: t ++ (marker ++ rest) := List.prefix_append t _
    have h1 : marker <+: t :=
      List.prefix_of_prefix_length_le hpre htpre (by omega)
    have := containsSub_of_pfx (by decide : marker ≠ [])
      (List.isPrefixOf_iff_prefix.mpr h1)
    rw [h] at this
    exact absurd this (by decide)
  · have hpos : 0 < t.length := List.length_pos.mpr hne
    have heq : marker = (t ++ (marker ++ rest)).take 5 := by
      have := List.prefix_iff_eq_take.mp hpre
      rwa [hml] at this
    rw [List.take_append_eq_append_take, List.take_of_length_le (by omega)] at heq
    have hdrop : marker.drop t.length = (marker ++ rest).take (5 - t.length) := by
      have h2 := congrArg (List.drop t.length) heq
      rwa [List.drop_left] at h2
    rw [List.take_append_eq_append_take, hml] at hdrop
    have hzero : 5 - t.length - 5 = 0 := by omega
    rw [hzero, List.take_zero, List.append_nil] at hdrop
    have hcases : t.length = 1 ∨ t.length = 2 ∨ t.length = 3 ∨ t.length = 4 := by omega
    rcases hcases with hc | hc | hc | hc <;> rw [hc] at hdrop <;>
      exact absurd hdrop (by decide)

theorem findSplit_marker_append {pre rest : Str} (h : containsSub marker pre = false) :
    findSplit marker (pre ++ (marker ++ rest)) = some (pre, rest) := by
  induction pre with
  | nil =>
    simp only [List.nil_append]
    have hshape : marker ++ rest = '(' :: (['I', 'D', ':', ' '] ++ rest) := rfl
    rw [hshape, findSplit, ← hshape]
    rw [if_pos (List.isPrefixOf_iff_prefix.mpr (List.prefix_append marker rest))]
    rw [List.drop_left]
  | cons c pre' ih =>
    have hnp := @marker_not_pfx_of_clean (c :: pre') rest (List.cons_ne_nil c pre') h
    rw [List.cons_append] at hnp
    rw [List.cons_append, findSplit]
    rw [if_neg (by simp only [hnp]; exact Bool.false_ne_true)]
    rw [ih (containsSub_tail h)]
    rfl

/-- The segment used by `reply_to_user` for the text between a clean middle
part and the close paren: whatever the second marker split yields, truncating
at the first close paren recovers exactly the middle part. -/
theorem seg_clean {mid : Str} (suf : Str) (h1 : '(' ∉ mid) (h2 : ')' ∉ mid) :
    (match findSplit marker (mid ++ ')' :: suf) with
      | some q => q.1
      | none => mid ++ ')' :: suf).takeWhile (fun c => c != ')') = mid := by
  induction mid with
  | nil =>
    simp only [List.nil_append]
    rw [findSplit]
    rw [if_neg (by simp [marker, List.isPrefixOf])]
    cases hfs : findSplit marker suf with
    | none => simp [List.takeWhile_cons]
    | some p => simp [List.takeWhile_cons]
  | cons c mid' ih =>
    have hc1 : c ≠ '(' := fun hx => h1 (by simp [hx])
    have hc2 : c ≠ ')' := fun hx => h2 (by simp [hx])
    have hm1 : '(' ∉ mid' := fun hx => h1 (by simp [hx])
    have hm2 : ')' ∉ mid' := fun hx => h2 (by simp [hx])
    have ihm := ih hm1 hm2
    rw [List.cons_append, findSplit]
    rw [if_neg (by simp [marker, List.isPrefixOf, Ne.symm hc1])]
    cases hfs : findSplit marker (mid' ++ ')' :: suf) with
    | none =>
      rw [hfs] at ihm
      simp only [hfs, Option.map_none']
      simp [List.takeWhile_cons, hc2, ihm]
    | some p =>
      rw [hfs] at ihm
      simp only [hfs, Option.map_some']
      simp [List.takeWhile_cons, hc2, ihm]

/-- Evaluation of the id extraction on a message of the composed shape:
a marker-free part, the marker, a middle part free of parens, a close paren
and an arbitrary tail.  The result is Python `int` applied to the middle part
with backquotes removed — exactly lines 473-477 of bot.py. -/
theorem extract_decomposed {pre mid : Str} (suf : Str)
    (hpre : containsSub marker pre = false) (h1 : '(' ∉ mid) (h2 : ')' ∉ mid) :
    extract_user_id (pre ++ (marker ++ (mid ++ ')' :: suf))) =
      pythonInt (mid.filter (fun c => c != backquote)) := by
  rw [extract_user_id, findSplit_marker_append hpre]
  have hseg := seg_clean suf h1 h2
  cases hfs : findSplit marker (mid ++ ')' :: suf) with
  | none =>
    rw [hfs] at hseg
    simp only [hfs]
    rw [hseg]
  | some p =>
    rw [hfs] at hseg
    simp only [hfs]
    rw [hseg]

theorem containsSub_decomposed {pre mid : Str} (suf : Str)
    (hpre : containsSub marker pre = false) :
    containsSub marker (pre ++ (marker ++ (mid ++ ')' :: suf))) = true := by
  rw [containsSub, findSplit_marker_append hpre]
  rfl

/-- `reply_to_user` on a message of the composed shape: it delivers to the
parsed id when the middle parses, and reports a parse error otherwise. -/
theorem reply_to_user_decomposed {pre mid : Str} (suf adminMsg : Str)
    (hpre : containsSub marker pre = false) (h1 : '(' ∉ mid) (h2 : ')' ∉ mid) :
    reply_to_user (some (pre ++ (marker ++ (mid ++ ')' :: suf)))) adminMsg =
      match pythonInt (mid.filter (fun c => c != backquote)) with
      | some uid => ReplyAction.deliver uid (admin_reply_text adminMsg)
      | none => ReplyAction.parse_error := by
  rw [reply_to_user]
  rw [if_pos (by rw [containsSub_decomposed suf hpre])]
  rw [extract_decomposed suf hpre h1 h2]

/-- `reply_to_user` without the marker in the replied-to text: the admin gets
the failure message and no delivery happens (bot.py line 487). -/
theorem reply_to_user_no_marker {t : Str} (adminMsg : Str)
    (h : containsSub marker t = false) :
    reply_to_user (some t) adminMsg = ReplyAction.not_forwarded := by
  rw [reply_to_user, if_neg (by simp [h])]

theorem natDigits_no_paren (n : Nat) : '(' ∉ natDigits n ∧ ')' ∉ natDigits n := by
  have hdg := natDigitsAux_digits (Nat.lt_succ_self n)
  constructor
  · intro hx
    have := hdg _ hx
    exact absurd this (by decide)
  · intro hx
    have := hdg _ hx
    exact absurd this (by decide)

theorem natDigits_filter_backquote (n : Nat) :
    (natDigits n).filter (fun c => c != backquote) = natDigits n := by
  have hdg := natDigitsAux_digits (Nat.lt_succ_self n)
  apply List.filter_eq_self.mpr
  intro c hc
  have := hdg c hc
  simp only [isDigitChar, Bool.and_eq_true, decide_eq_true_eq] at this
  have hb : c ≠ backquote := by
    intro hx
    rw [hx] at this
    exact absurd this (by decide)
  simp [hb]

theorem dhas_iff_mem {α : Type} (l : List (Str × α)) (k : Str) :
    dhas l k = true ↔ k ∈ l.map Prod.fst := by
  rw [dhas, List.any_eq_true]
  constructor
  · rintro ⟨e, he, hk⟩
    rw [beq_iff_eq] at hk
    rw [← hk]
    exact List.mem_map_of_mem Prod.fst he
  · intro hk
    rcases List.mem_map.mp hk with ⟨e, he, hk'⟩
    exact ⟨e, he, by rw [beq_iff_eq, hk']⟩

theorem dhas_false_iff {α : Type} (l : List (Str × α)) (k : Str) :
    dhas l k = false ↔ k ∉ l.map Prod.fst := by
  rw [← dhas_iff_mem]
  constructor
  · intro h hk
    rw [h] at hk
    exact absurd hk (by decide)
  · intro h
    cases hd : dhas l k with
    | false => rfl
    | true => exact absurd hd h

theorem dput_append {α : Type} (l : List (Str × α)) (k : Str) (v : α)
    (h : dhas l k = false) : dput l k v = l ++ [(k, v)] := by
  rw [dput, if_neg (by rw [h]; exact Bool.false_ne_true)]

theorem dput_keys {α : Type} (l : List (Str × α)) (k : Str) (v : α)
    (h : dhas l k = true) :
    (dput l k v).map Prod.fst = l.map Prod.fst := by
  rw [dput, if_pos h, List.map_map]
  apply List.map_congr_left
  intro e _
  show (if e.1 == k then (e.1, v) else e).1 = e.1
  split
  · rfl
  · rfl

theorem dget_cons_pos {α : Type} (e : Str × α) (rest : List (Str × α)) (k : Str)
    (he : (e.1 == k) = true) : dget (e :: rest) k = some e.2 := by
  rw [dget]
  rw [@List.find?_cons_of_pos _ (fun x => x.1 == k) e rest he]
  rfl

theorem dget_cons_neg {α : Type} (e : Str × α) (rest : List (Str × α)) (k : Str)
    (he : (e.1 == k) = false) : dget (e :: rest) k = dget rest k := by
  rw [dget, dget]
  rw [@List.find?_cons_of_neg _ (fun x => x.1 == k) e rest
    (by show ¬ (e.1 == k) = true; rw [he]; exact Bool.false_ne_true)]

theorem dhas_eq_isSome {α : Type} (l : List (Str × α)) (k : Str) :
    dhas l k = (dget l k).isSome := by
  induction l with
  | nil => rfl
  | cons e rest ih =>
    cases he : (e.1 == k) with
    | true =>
      rw [dget_cons_pos e rest k he, dhas, List.any_cons, he]
      rfl
    | false =>
      rw [dget_cons_neg e rest k he, dhas, List.any_cons, he, Bool.false_or]
      exact ih

theorem dget_update_same {α : Type} (l : List (Str × α)) (k : Str) (v : α) :
    dget (l.map (fun e => if e.1 == k then (e.1, v) else e)) k
      = (dget l k).map (fun _ => v) := by
  induction l with
  | nil => rfl
  | cons e rest ih =>
    cases he : (e.1 == k) with
    | true =>
      rw [List.map_cons, if_pos he]
      rw [dget_cons_pos (e.1, v) _ k (by exact he)]
      rw [dget_cons_pos e rest k he]
      rfl
    | false =>
      rw [List.map_cons, if_neg (by rw [he]; exact Bool.false_ne_true)]
      rw [dget_cons_neg e _ k he]
      rw [dget_cons_neg e rest k he]
      exact ih

theorem dget_update_other {α : Type} (l : List (Str × α)) (k k' : Str) (v : α)
    (hne : k' ≠ k) :
    dget (l.map (fun e => if e.1 == k then (e.1, v) else e)) k' = dget l k' := by
  induction l with
  | nil => rfl
  | cons e rest ih =>
    cases he : (e.1 == k) with
    | true =>
      have hek : e.1 = k := by rwa [beq_iff_eq] at he
      have hne2 : (e.1 == k') = false := by
        simp only [beq_eq_false_iff_ne]
        rw [hek]
        exact fun hx => hne hx.symm
      rw [List.map_cons, if_pos he]
      rw [dget_cons_neg (e.1, v) _ k' (by exact hne2)]
      rw [dget_cons_neg e rest k' hne2]
      exact ih
    | false =>
      rw [List.map_cons, if_neg (by rw [he]; exact Bool.false_ne_true)]
      cases he' : (e.1 == k') with
      | true =>
        rw [dget_cons_pos e _ k' he', dget_cons_pos e rest k' he']
      | false =>
        rw [dget_cons_neg e _ k' he', dget_cons_neg e rest k' he']
        exact ih

theorem dget_append_single {α : Type} (l : List (Str × α)) (k k' : Str) (v : α)
    (hne : k' ≠ k) : dget (l ++ [(k, v)]) k' = dget l k' := by
  induction l with
  | nil =>
    have hkk : (k == k') = false := by
      simp only [beq_eq_false_iff_ne]
      exact fun hx => hne hx.symm
    show dget [(k, v)] k' = dget [] k'
    rw [dget_cons_neg (k, v) [] k' (by exact hkk)]
  | cons e rest ih =>
    rw [List.cons_append]
    cases he : (e.1 == k') with
    | true =>
      rw [dget_cons_pos e _ k' he, dget_cons_pos e rest k' he]
    | false =>
      rw [dget_cons_neg e _ k' he, dget_cons_neg e rest k' he]
      exact ih

theorem dget_dput_same {α : Type} (l : List (Str × α)) (k : Str) (v : α)
    (h : dhas l k = true) : dget (dput l k v) k = some v := by
  rw [dput, if_pos h, dget_update_same]
  rw [dhas_eq_isSome] at h
  cases hg : dget l k with
  | none =>
    rw [hg] at h
    simp at h
  | some x => rfl

theorem dget_dput_other {α : Type} (l : List (Str × α)) (k k' : Str) (v : α)
    (hne : k' ≠ k) : dget (dput l k v) k' = dget l k' := by
  rw [dput]
  by_cases h : dhas l k = true
  · rw [if_pos h]
    exact dget_update_other l k k' v hne
  · rw [if_neg h]
    exact dget_append_single l k k' v hne

theorem candKey_injective (base : Str) : Function.Injective (candKey base) := by
  intro a b hab
  rw [candKey, candKey] at hab
  have h1 := List.append_cancel_left hab
  have h2 : natDigits a = natDigits b := by
    injection h1
  exact natDigits_injective h2

theorem freshFrom_not_has {c : Catalog} {base : Str} :
    ∀ fuel ctr, (∃ i, i < fuel ∧ dhas c (candKey base (ctr + i)) = false) →
      dhas c (freshFrom c base ctr fuel) = false := by
  intro fuel
  induction fuel with
  | zero =>
    rintro ctr ⟨i, hi, _⟩
    omega
  | succ f ih =>
    rintro ctr ⟨i, hi, hfree⟩
    rw [freshFrom]
    by_cases hc : dhas c (candKey base ctr) = true
    · rw [if_pos hc]
      apply ih
      cases i with
      | zero =>
        rw [Nat.add_zero] at hfree
        rw [hc] at hfree
        exact absurd hfree (by decide)
      | succ j =>
        refine ⟨j, by omega, ?_⟩
        have hadd : ctr + 1 + j = ctr + (j + 1) := by omega
        rw [hadd]
        exact hfree
    · rw [if_neg hc]
      exact Bool.of_not_eq_true hc

theorem freshFrom_shape (c : Catalog) (base : Str) :
    ∀ fuel ctr, ∃ n, freshFrom c base ctr fuel = candKey base n := by
  intro fuel
  induction fuel with
  | zero =>
    intro ctr
    exact ⟨ctr, rfl⟩
  | succ f ih =>
    intro ctr
    rw [freshFrom]
    by_cases hc : dhas c (candKey base ctr) = true
    · rw [if_pos hc]
      exact ih (ctr + 1)
    · rw [if_neg hc]
      exact ⟨ctr, rfl⟩

theorem cand_exists_free (c : Catalog) (base : Str) :
    ∃ i, i < c.length + 1 ∧ dhas c (candKey base (1 + i)) = false := by
  by_contra hall
  push_neg at hall
  have hall' : ∀ i, i < c.length + 1 → dhas c (candKey base (1 + i)) = true := by
    intro i hi
    have hx := hall i hi
    cases hd : dhas c (candKey base (1 + i)) with
    | false => exact absurd hd hx
    | true => rfl
  set keys := c.map Prod.fst with hkeys
  set cands := (List.range (c.length + 1)).map (fun i => candKey base (1 + i))
    with hcands
  have hnd : cands.Nodup := by
    apply List.Nodup.map _ (List.nodup_range (c.length + 1))
    intro a b hab
    have := candKey_injective base hab
    omega
  have hsub : ∀ x ∈ cands, x ∈ keys := by
    intro x hx
    rcases List.mem_map.mp hx with ⟨i, hi, hx'⟩
    rw [List.mem_range] at hi
    rw [← hx']
    exact (dhas_iff_mem c _).mp (hall' i hi)
  have h1 : cands.toFinset.card = cands.length := List.toFinset_card_of_nodup hnd
  have h2 : cands.length = c.length + 1 := by
    rw [hcands, List.length_map, List.length_range]
  have h3 : cands.toFinset ⊆ keys.toFinset := by
    intro x hx
    rw [List.mem_toFinset] at hx ⊢
    exact hsub x hx
  have h4 := Finset.card_le_card h3
  have h5 : keys.toFinset.card ≤ keys.length := List.toFinset_card_le keys
  have h6 : keys.length = c.length := by rw [hkeys, List.length_map]
  omega

/-- The key chosen by `add_course` is never an existing key: the Python
`while` loop runs until the candidate is free, and a free candidate always
exists among the first `|catalog| + 1`. -/
theorem uniqueKey_not_has (c : Catalog) (base : Str) :
    dhas c (uniqueKey c base) = false := by
  rw [uniqueKey]
  by_cases h : dhas c base = true
  · rw [if_pos h]
    apply freshFrom_not_has
    rcases cand_exists_free c base with ⟨i, hi, hfree⟩
    exact ⟨i, hi, hfree⟩
  · rw [if_neg h]
    exact Bool.of_not_eq_true h

/-- The disambiguated key is the base key itself or the base key with an
underscore-counter suffix. -/
theorem uniqueKey_shape (c : Catalog) (base : Str) :
    uniqueKey c base = base ∨ ∃ n, uniqueKey c base = candKey base n := by
  rw [uniqueKey]
  by_cases h : dhas c base = true
  · rw [if_pos h]
    right
    exact freshFrom_shape c base (c.length + 1) 1
  · rw [if_neg h]
    left
    rfl

theorem collapseAux_keyChars (l : Str) :
    ∀ b, ∀ c ∈ collapseAux b l, isKeyChar c = true := by
  induction l with
  | nil =>
    intro b c hc
    simp [collapseAux] at hc
  | cons x rest ih =>
    intro b c hc
    rw [collapseAux] at hc
    by_cases hs : isSlugChar x = true
    · rw [if_pos hs] at hc
      rcases List.mem_cons.mp hc with hc' | hc'
      · rw [hc', isKeyChar, hs]
        rfl
      · exact ih false c hc'
    · rw [if_neg hs] at hc
      by_cases hb : b = true
      · rw [if_pos hb] at hc
        exact ih true c hc
      · rw [if_neg hb] at hc
        rcases List.mem_cons.mp hc with hc' | hc'
        · rw [hc']
          decide
        · exact ih true c hc'

theorem stripUnder_subset (l : Str) : ∀ c ∈ stripUnder l, c ∈ l := by
  intro c hc
  rw [stripUnder] at hc
  rw [List.mem_reverse] at hc
  have h1 := List.dropWhile_subset (fun c => c == '_') hc
  rw [List.mem_reverse] at h1
  exact List.dropWhile_subset _ h1

theorem slug_keyChars (name : Str) : ∀ c ∈ slug name, isKeyChar c = true := by
  intro c hc
  exact collapseAux_keyChars (pyLower name) false c (stripUnder_subset _ c hc)

theorem digit_keyChar {c : Char} (h : isDigitChar c = true) : isKeyChar c = true := by
  rw [isDigitChar, Bool.and_eq_true, decide_eq_true_eq, decide_eq_true_eq] at h
  rw [isKeyChar, isSlugChar]
  have h1 : (48 ≤ c.toNat && c.toNat ≤ 57) = true := by
    rw [Bool.and_eq_true, decide_eq_true_eq, decide_eq_true_eq]
    exact h
  rw [h1]
  simp

theorem natDigits_keyChars (n : Nat) : ∀ c ∈ natDigits n, isKeyChar c = true :=
  fun c hc => digit_keyChar (natDigitsAux_digits (Nat.lt_succ_self n) c hc)

theorem candKey_keyChars {base : Str} (hb : ∀ c ∈ base, isKeyChar c = true) (n : Nat) :
    ∀ c ∈ candKey base n, isKeyChar c = true := by
  intro c hc
  rw [candKey] at hc
  rcases List.mem_append.mp hc with hc' | hc'
  · exact hb c hc'
  · rcases List.mem_cons.mp hc' with hc2 | hc2
    · rw [hc2]
      decide
    · exact natDigits_keyChars n c hc2

theorem uniqueKey_keyChars {c : Catalog} {base : Str}
    (hb : ∀ x ∈ base, isKeyChar x = true) :
    ∀ x ∈ uniqueKey c base, isKeyChar x = true := by
  rcases uniqueKey_shape c base with hs | ⟨n, hs⟩
  · rw [hs]
    exact hb
  · rw [hs]
    exact candKey_keyChars hb n

theorem candKey_ne_nil (base : Str) (n : Nat) : candKey base n ≠ [] := by
  rw [candKey]
  intro hx
  rcases List.append_eq_nil.mp hx with ⟨_, h2⟩
  exact List.cons_ne_nil _ _ h2

theorem uniqueKey_ne_nil {c : Catalog} {base : Str} (hb : base ≠ []) :
    uniqueKey c base ≠ [] := by
  rcases uniqueKey_shape c base with hs | ⟨n, hs⟩
  · rw [hs]
    exact hb
  · rw [hs]
    exact candKey_ne_nil base n

theorem pyToLower_keyChar {c : Char} (h : isKeyChar c = true) : pyToLower c = c := by
  have hn : c.toNat < 65 ∨ 90 < c.toNat := by
    rw [isKeyChar, Bool.or_eq_true] at h
    rcases h with h | h
    · rw [isSlugChar, Bool.or_eq_true, Bool.and_eq_true, Bool.and_eq_true] at h
      rcases h with ⟨h1, h2⟩ | ⟨h1, h2⟩
      · rw [decide_eq_true_eq] at h1
        omega
      · rw [decide_eq_true_eq] at h2
        omega
    · rw [beq_iff_eq] at h
      rw [h]
      right
      decide
  rw [pyToLower, if_neg]
  intro hx
  omega

theorem pyLower_keyChars : ∀ (l : Str), (∀ c ∈ l, isKeyChar c = true) → pyLower l = l := by
  intro l
  induction l with
  | nil => intro _; rfl
  | cons c rest ih =>
    intro h
    rw [pyLower, List.map_cons]
    rw [pyToLower_keyChar (h c (by simp))]
    have hr := ih (fun x hx => h x (by simp [hx]))
    rw [pyLower] at hr
    rw [hr]

/-- C1 counterexample: the replied-to text `(ID: x) (ID: 12345)` contains the
substring `(ID: 12345)`, yet `reply_to_user` parses the segment after the
FIRST `(ID: ` (which is `x`), fails, and reports a parse error instead of
delivering to 12345 — refuting the claim as stated. -/
theorem C1_counterexample :
    containsSub ("(ID: 12345)".toList) ("(ID: x) (ID: 12345)".toList) = true ∧
    reply_to_user (some ("(ID: x) (ID: 12345)".toList)) ("hi".toList) =
      ReplyAction.parse_error := by
  decide

/-- C1 (amended): for a replied-to text decomposing as a marker-free part,
the first `(ID: `, a paren-free segment and a close paren, the relay delivers
the admin-reply message to the id parsed from that FIRST segment (backquotes
removed) — in particular it recovers `12345` when the first segment is
`12345` — and when the segment does not parse it reports a parse error and
delivers nothing; for a text lacking `(ID: ` entirely it reports the
not-a-forward error and delivers nothing. -/
theorem C1_admin_reply_correlation (pre mid suf adminMsg t : Str)
    (hpre : containsSub marker pre = false)
    (h1 : '(' ∉ mid) (h2 : ')' ∉ mid)
    (hnomark : containsSub marker t = false) :
    (∀ uid : Int, pythonInt (mid.filter (fun c => c != backquote)) = some uid →
      reply_to_user (some (pre ++ (marker ++ (mid ++ ')' :: suf)))) adminMsg =
        ReplyAction.deliver uid (admin_reply_text adminMsg)) ∧
    (pythonInt (mid.filter (fun c => c != backquote)) = none →
      reply_to_user (some (pre ++ (marker ++ (mid ++ ')' :: suf)))) adminMsg =
        ReplyAction.parse_error) ∧
    reply_to_user (some t) adminMsg = ReplyAction.not_forwarded := by
  refine ⟨?_, ?_, reply_to_user_no_marker adminMsg hnomark⟩
  · intro uid huid
    rw [reply_to_user_decomposed suf adminMsg hpre h1 h2, huid]
  · intro hnone
    rw [reply_to_user_decomposed suf adminMsg hpre h1 h2, hnone]

/-- C1 witness: concrete instantiation of `C1_admin_reply_correlation` with
an empty prefix, segment `12345` and a marker-free second text. -/
theorem C1_witness :
    containsSub marker [] = false ∧
    containsSub marker ("no id marker here".toList) = false ∧
    pythonInt (("12345".toList).filter (fun c => c != backquote)) = some 12345 ∧
    reply_to_user (some (([] : Str) ++ (marker ++ ("12345".toList ++ ')' :: []))))
        ("ok".toList) =
      ReplyAction.deliver 12345 (admin_reply_text ("ok".toList)) ∧
    reply_to_user (some ("no id marker here".toList)) ("ok".toList) =
      ReplyAction.not_forwarded := by
  have h := C1_admin_reply_correlation [] ("12345".toList) [] ("ok".toList)
    ("no id marker here".toList) (by decide) (by decide) (by decide) (by decide)
  exact ⟨by decide, by decide, by decide, h.1 12345 (by decide), h.2.2⟩

/-- C2 counterexample: the screenshot caption composed for user id 12345
wraps the id in backquotes, so it does NOT contain the literal pattern
`(ID: 12345)` — the pattern is not identical across the three variants. -/
theorem C2_counterexample :
    containsSub ("(ID: 12345)".toList)
      (screenshot_caption ("Alice".toList) ("Smith".toList) 12345 ("Phys".toList))
      = false := by
  decide

/-- C2 (amended): all three admin-facing messages embed the user id after
the same `(ID: ` marker (the screenshot caption additionally wraps the
digits in backquotes, which the reply-side parser strips), so as long as the
user-controlled content before the marker does not itself contain `(ID: `,
the id extraction of `reply_to_user` recovers the originating id from each
of the three variants. -/
theorem C2_id_pattern_stability (first lastName course msg : Str) (uid : Nat)
    (hf : containsSub marker (forwardPre first lastName) = false)
    (hs : containsSub marker (screenshotPre first lastName) = false)
    (hu : containsSub marker (followupPre first) = false) :
    extract_user_id (forward_text first lastName uid course msg) = some (uid : Int) ∧
    extract_user_id (screenshot_caption first lastName uid course) = some (uid : Int) ∧
    extract_user_id (followup_text first uid msg) = some (uid : Int) := by
  have hpar := natDigits_no_paren uid
  refine ⟨?_, ?_, ?_⟩
  · have hdec : forward_text first lastName uid course msg =
        forwardPre first lastName ++ (marker ++ (natDigits uid ++ ')' ::
          ("\nRegarding course: ".toList ++ course ++ "\n\nMessage:\n".toList ++ msg))) := by
      simp [forward_text, List.append_assoc]
    rw [hdec, extract_decomposed _ hf hpar.1 hpar.2, natDigits_filter_backquote]
    exact pythonInt_natDigits uid
  · have hdec : screenshot_caption first lastName uid course =
        screenshotPre first lastName ++ (marker ++
          ((backquote :: (natDigits uid ++ [backquote])) ++ ')' ::
            ("\nFor course: **".toList ++ course
              ++ "**\n\nReply to this message to send the course link to the user.".toList))) := by
      simp [screenshot_caption, List.append_assoc]
    have hm1 : '(' ∉ backquote :: (natDigits uid ++ [backquote]) := by
      intro hx
      rcases List.mem_cons.mp hx with hx' | hx'
      · exact absurd hx' (by decide)
      · rcases List.mem_append.mp hx' with hx2 | hx2
        · exact hpar.1 hx2
        · rcases List.mem_singleton.mp hx2 with hx3
          exact absurd hx3 (by decide)
    have hm2 : ')' ∉ backquote :: (natDigits uid ++ [backquote]) := by
      intro hx
      rcases List.mem_cons.mp hx with hx' | hx'
      · exact absurd hx' (by decide)
      · rcases List.mem_append.mp hx' with hx2 | hx2
        · exact hpar.2 hx2
        · rcases List.mem_singleton.mp hx2 with hx3
          exact absurd hx3 (by decide)
    rw [hdec, extract_decomposed _ hs hm1 hm2]
    have hfil : ((backquote :: (natDigits uid ++ [backquote])).filter
        (fun c => c != backquote)) = natDigits uid := by
      simp [List.filter_cons, List.filter_append, natDigits_filter_backquote]
    rw [hfil]
    exact pythonInt_natDigits uid
  · have hdec : followup_text first uid msg =
        followupPre first ++ (marker ++ (natDigits uid ++ ')' ::
          (":\n\n".toList ++ msg))) := by
      simp [followup_text, List.append_assoc]
    rw [hdec, extract_decomposed _ hu hpar.1 hpar.2, natDigits_filter_backquote]
    exact pythonInt_natDigits uid

/-- C2 witness: concrete instantiation of `C2_id_pattern_stability` for user
`Alice Smith`, id 12345 and course `Phys`. -/
theorem C2_witness :
    containsSub marker (forwardPre ("Alice".toList) ("Smith".toList)) = false ∧
    containsSub marker (screenshotPre ("Alice".toList) ("Smith".toList)) = false ∧
    containsSub marker (followupPre ("Alice".toList)) = false ∧
    extract_user_id (forward_text ("Alice".toList) ("Smith".toList) 12345
      ("Phys".toList) ("hello".toList)) = some 12345 ∧
    extract_user_id (screenshot_caption ("Alice".toList) ("Smith".toList) 12345
      ("Phys".toList)) = some 12345 ∧
    extract_user_id (followup_text ("Alice".toList) 12345 ("thanks".toList))
      = some 12345 := by
  have h := C2_id_pattern_stability ("Alice".toList) ("Smith".toList)
    ("Phys".toList) ("hello".toList) 12345 (by decide) (by decide) (by decide)
  have h' := C2_id_pattern_stability ("Alice".toList) ("Smith".toList)
    ("Phys".toList) ("thanks".toList) 12345 (by decide) (by decide) (by decide)
  exact ⟨by decide, by decide, by decide, h.1, h.2.1, h'.2.2⟩

theorem addKey_not_has (c : Catalog) (name : Str) : dhas c (addKey c name) = false := by
  rw [addKey]
  exact uniqueKey_not_has c _

theorem add_course_success (c : Catalog) (name priceStr statusStr : Str) (p : Int)
    (hstatus : statusStr = statusAvailable ∨ statusStr = statusComingSoon)
    (hprice : pythonInt priceStr = some p) (hp : 0 ≤ p) :
    add_course c name priceStr statusStr =
      (AddOutcome.added (addKey c name),
        dput c (addKey c name) (Course.mk name p statusStr)) := by
  have hlow : pyLower statusStr = statusStr := by
    rcases hstatus with h | h
    · rw [h]; decide
    · rw [h]; decide
  have hcond : ¬ (statusStr ≠ statusAvailable ∧ statusStr ≠ statusComingSoon) := by
    rcases hstatus with h | h
    · exact fun hx => hx.1 h
    · exact fun hx => hx.2 h
  simp only [add_course, hprice, hlow]
  rw [if_neg hcond]
  rw [if_neg (by omega)]

/-- C3: for valid inputs (status one of the two literals, price a
non-negative integer), `add_course` generates a key not present in the
catalog — derived from the slug of the name, with an underscore-counter
suffix on collision — and the new catalog is the old one plus exactly the
one new entry carrying the given name, price and status. -/
theorem C3_add_course_valid (c : Catalog) (name priceStr statusStr : Str) (p : Int)
    (hstatus : statusStr = statusAvailable ∨ statusStr = statusComingSoon)
    (hprice : pythonInt priceStr = some p) (hp : 0 ≤ p) :
    ∃ k, add_course c name priceStr statusStr =
        (AddOutcome.added k, c ++ [(k, Course.mk name p statusStr)]) ∧
      dhas c k = false ∧
      (slug name ≠ [] → k = slug name ∨ ∃ n, k = candKey (slug name) n) := by
  refine ⟨addKey c name, ?_, addKey_not_has c name, ?_⟩
  · rw [add_course_success c name priceStr statusStr p hstatus hprice hp]
    rw [dput_append c (addKey c name) _ (addKey_not_has c name)]
  · intro hslug
    rw [addKey, if_neg hslug]
    exact uniqueKey_shape c (slug name)

/-- C3 witness: adding `Calc 2` for price 199 to the empty catalog. -/
theorem C3_witness :
    ((("available".toList) : Str) = statusAvailable ∨
      (("available".toList) : Str) = statusComingSoon) ∧
    pythonInt ("199".toList) = some 199 ∧ (0 : Int) ≤ 199 ∧
    (∃ k, add_course [] ("Calc 2".toList) ("199".toList) ("available".toList) =
        (AddOutcome.added k,
          ([] : Catalog) ++ [(k, Course.mk ("Calc 2".toList) 199 ("available".toList))]) ∧
      dhas ([] : Catalog) k = false ∧
      (slug ("Calc 2".toList) ≠ [] →
        k = slug ("Calc 2".toList) ∨ ∃ n, k = candKey (slug ("Calc 2".toList)) n)) := by
  refine ⟨Or.inl rfl, by decide, by decide, ?_⟩
  have hs : (("available".toList) : Str) = statusAvailable := rfl
  exact C3_add_course_valid [] ("Calc 2".toList) ("199".toList) ("available".toList)
    199 (Or.inl hs) (by decide) (by decide)

/-- C4 counterexample: the status argument `AVAILABLE` is outside
`{available, coming_soon}`, yet `add_course` lowercases it first and accepts
the command, adding an entry — the operation is not rejected and the catalog
changes, refuting the claim as stated. -/
theorem C4_counterexample :
    ¬ ((("AVAILABLE".toList) : Str) = statusAvailable ∨
        (("AVAILABLE".toList) : Str) = statusComingSoon) ∧
    (add_course [] ("X".toList) ("5".toList) ("AVAILABLE".toList)).1 =
      AddOutcome.added ("x".toList) ∧
    (add_course [] ("X".toList) ("5".toList) ("AVAILABLE".toList)).2 ≠ [] := by
  decide

/-- C4 (amended): whenever the LOWERCASED status argument is outside
`{available, coming_soon}`, or the price does not parse as an integer, or it
parses negative, `add_course` answers with an error outcome and leaves the
catalog exactly unchanged. -/
theorem C4_add_course_rejects (c : Catalog) (name priceStr statusStr : Str)
    (h : (pyLower statusStr ≠ statusAvailable ∧ pyLower statusStr ≠ statusComingSoon) ∨
      pythonInt priceStr = none ∨ (∃ p, pythonInt priceStr = some p ∧ p < 0)) :
    (add_course c name priceStr statusStr).2 = c ∧
    ∀ k, (add_course c name priceStr statusStr).1 ≠ AddOutcome.added k := by
  by_cases hstat : pyLower statusStr ≠ statusAvailable ∧
      pyLower statusStr ≠ statusComingSoon
  · constructor
    · simp only [add_course]
      rw [if_pos hstat]
    · intro k
      simp only [add_course]
      rw [if_pos hstat]
      intro hx
      exact AddOutcome.noConfusion hx
  · have hbad : pythonInt priceStr = none ∨
        (∃ p, pythonInt priceStr = some p ∧ p < 0) := by
      rcases h with h | h | h
      · exact absurd h hstat
      · exact Or.inl h
      · exact Or.inr h
    rcases hbad with hnone | ⟨p, hsome, hneg⟩
    · constructor
      · simp only [add_course, hnone]
        rw [if_neg hstat]
      · intro k
        simp only [add_course, hnone]
        rw [if_neg hstat]
        intro hx
        exact AddOutcome.noConfusion hx
    · constructor
      · simp only [add_course, hsome]
        rw [if_neg hstat, if_pos hneg]
      · intro k
        simp only [add_course, hsome]
        rw [if_neg hstat, if_pos hneg]
        intro hx
        exact AddOutcome.noConfusion hx

/-- C4 witness: adding with status `bogus` is rejected with the catalog
unchanged. -/
theorem C4_witness :
    (pyLower ("bogus".toList) ≠ statusAvailable ∧
      pyLower ("bogus".toList) ≠ statusComingSoon) ∧
    (add_course [] ("X".toList) ("5".toList) ("bogus".toList)).2 = [] ∧
    ∀ k, (add_course [] ("X".toList) ("5".toList) ("bogus".toList)).1 ≠
      AddOutcome.added k := by
  refine ⟨by decide, ?_⟩
  exact C4_add_course_rejects [] ("X".toList) ("5".toList) ("bogus".toList)
    (Or.inl (by decide))

theorem edit_course_success (c : Catalog) (key name priceStr statusStr : Str) (p : Int)
    (hstatus : statusStr = statusAvailable ∨ statusStr = statusComingSoon)
    (hprice : pythonInt priceStr = some p) (hp : 0 ≤ p)
    (hk : dhas c key = true) :
    edit_course c key name priceStr statusStr =
      (EditOutcome.updated, dput c key (Course.mk name p statusStr)) := by
  have hlow : pyLower statusStr = statusStr := by
    rcases hstatus with h | h
    · rw [h]; decide
    · rw [h]; decide
  have hcond : ¬ (statusStr ≠ statusAvailable ∧ statusStr ≠ statusComingSoon) := by
    rcases hstatus with h | h
    · exact fun hx => hx.1 h
    · exact fun hx => hx.2 h
  simp only [edit_course, hprice, hlow]
  rw [if_neg (by rw [hk]; exact fun hx => Bool.noConfusion hx)]
  rw [if_neg hcond]
  rw [if_neg (by omega)]

/-- C5: with valid inputs, `edit_course` on a present key keeps the key set
(and order) unchanged, overwrites exactly that key's record with the given
name, price and status, touches no other entry; on an absent key it reports
not-found and leaves the catalog exactly unchanged. -/
theorem C5_edit_course (c : Catalog) (key name priceStr statusStr : Str) (p : Int)
    (hstatus : statusStr = statusAvailable ∨ statusStr = statusComingSoon)
    (hprice : pythonInt priceStr = some p) (hp : 0 ≤ p) :
    (dhas c key = true →
      edit_course c key name priceStr statusStr =
        (EditOutcome.updated, dput c key (Course.mk name p statusStr)) ∧
      (dput c key (Course.mk name p statusStr)).map Prod.fst = c.map Prod.fst ∧
      dget (dput c key (Course.mk name p statusStr)) key =
        some (Course.mk name p statusStr) ∧
      (∀ k', k' ≠ key →
        dget (dput c key (Course.mk name p statusStr)) k' = dget c k')) ∧
    (dhas c key = false →
      edit_course c key name priceStr statusStr = (EditOutcome.notFound, c)) := by
  constructor
  · intro hk
    refine ⟨edit_course_success c key name priceStr statusStr p hstatus hprice hp hk,
      dput_keys c key _ hk, dget_dput_same c key _ hk,
      fun k' hk' => dget_dput_other c key k' _ hk'⟩
  · intro hk
    simp only [edit_course]
    rw [if_pos hk]

/-- C5 witness: editing the single entry `a` of a one-course catalog, and
editing the absent key `b` of the same catalog. -/
theorem C5_witness :
    ((("coming_soon".toList) : Str) = statusAvailable ∨
      (("coming_soon".toList) : Str) = statusComingSoon) ∧
    pythonInt ("250".toList) = some 250 ∧
    dhas [(("a".toList : Str), Course.mk ("A".toList) 1 statusAvailable)]
      ("a".toList) = true ∧
    dhas [(("a".toList : Str), Course.mk ("A".toList) 1 statusAvailable)]
      ("b".toList) = false ∧
    edit_course [(("a".toList : Str), Course.mk ("A".toList) 1 statusAvailable)]
        ("a".toList) ("B".toList) ("250".toList) ("coming_soon".toList) =
      (EditOutcome.updated,
        dput [(("a".toList : Str), Course.mk ("A".toList) 1 statusAvailable)]
          ("a".toList) (Course.mk ("B".toList) 250 ("coming_soon".toList))) ∧
    edit_course [(("a".toList : Str), Course.mk ("A".toList) 1 statusAvailable)]
        ("b".toList) ("B".toList) ("250".toList) ("coming_soon".toList) =
      (EditOutcome.notFound,
        [(("a".toList : Str), Course.mk ("A".toList) 1 statusAvailable)]) := by
  have h1 := C5_edit_course
    [(("a".toList : Str), Course.mk ("A".toList) 1 statusAvailable)]
    ("a".toList) ("B".toList) ("250".toList) ("coming_soon".toList) 250
    (Or.inr rfl) (by decide) (by decide)
  have h2 := C5_edit_course
    [(("a".toList : Str), Course.mk ("A".toList) 1 statusAvailable)]
    ("b".toList) ("B".toList) ("250".toList) ("coming_soon".toList) 250
    (Or.inr rfl) (by decide) (by decide)
  exact ⟨Or.inr rfl, by decide, by decide, by decide,
    (h1.1 (by decide)).1, h2.2 (by decide)⟩

/-- C6: roster insertion is idempotent.  Starting from a roster holding the
id at most once, one `save_user_id` leaves exactly one line for the id, a
second `save_user_id` for the same id changes nothing (so `total_users` is
bumped at most once), and when the id was new, `total_users` equals the new
roster size. -/
theorem C6_roster_idempotent (lines : List Str) (stats : BotStats) (uid : Nat)
    (h : lines.count (natDigits uid) ≤ 1) :
    save_user_id (save_user_id lines stats uid).1 (save_user_id lines stats uid).2 uid =
      save_user_id lines stats uid ∧
    (save_user_id lines stats uid).1.count (natDigits uid) = 1 ∧
    (natDigits uid ∉ lines →
      (save_user_id lines stats uid).2.total_users =
        (save_user_id lines stats uid).1.length) := by
  by_cases hm : natDigits uid ∈ lines
  · have heq : save_user_id lines stats uid = (lines, stats) := by
      simp only [save_user_id, if_pos hm]
    rw [heq]
    refine ⟨by simp only [save_user_id, if_pos hm], ?_, fun hx => absurd hm hx⟩
    have hpos : 0 < lines.count (natDigits uid) := List.count_pos_iff.mpr hm
    show lines.count (natDigits uid) = 1
    omega
  · have heq : save_user_id lines stats uid =
        (lines ++ [natDigits uid],
          { stats with total_users := lines.length + 1 }) := by
      simp only [save_user_id, if_neg hm]
    rw [heq]
    have hmem : natDigits uid ∈ lines ++ [natDigits uid] :=
      List.mem_append_right _ (List.mem_singleton_self _)
    refine ⟨by simp only [save_user_id, if_pos hmem], ?_, fun _ => by simp⟩
    rw [List.count_append]
    rw [List.count_eq_zero.mpr hm]
    simp

/-- C6 witness: starting twice with id 7 on an empty roster. -/
theorem C6_witness :
    (([] : List Str).count (natDigits 7) ≤ 1) ∧
    save_user_id (save_user_id [] (BotStats.mk 0 []) 7).1
        (save_user_id [] (BotStats.mk 0 []) 7).2 7 =
      save_user_id [] (BotStats.mk 0 []) 7 ∧
    (save_user_id [] (BotStats.mk 0 []) 7).1.count (natDigits 7) = 1 ∧
    (natDigits 7 ∉ ([] : List Str) →
      (save_user_id [] (BotStats.mk 0 []) 7).2.total_users =
        (save_user_id [] (BotStats.mk 0 []) 7).1.length) := by
  have h := C6_roster_idempotent [] (BotStats.mk 0 []) 7 (by decide)
  exact ⟨by decide, h.1, h.2.1, h.2.2⟩

theorem dget_append_self {α : Type} (l : List (Str × α)) (k : Str) (v : α)
    (h : dhas l k = false) : dget (l ++ [(k, v)]) k = some v := by
  induction l with
  | nil =>
    show dget [(k, v)] k = some v
    rw [dget_cons_pos (k, v) [] k (by simp)]
  | cons e rest ih =>
    have he : (e.1 == k) = false := by
      rw [dhas, List.any_cons] at h
      rcases Bool.or_eq_false_iff.mp h with ⟨h1, _⟩
      exact h1
    have hrest : dhas rest k = false := by
      rw [dhas, List.any_cons] at h
      rcases Bool.or_eq_false_iff.mp h with ⟨_, h2⟩
      exact h2
    rw [List.cons_append, dget_cons_neg e _ k he]
    exact ih hrest

theorem dget_dput_self {α : Type} (l : List (Str × α)) (k : Str) (v : α) :
    dget (dput l k v) k = some v := by
  by_cases h : dhas l k = true
  · exact dget_dput_same l k v h
  · have h' : dhas l k = false := Bool.of_not_eq_true h
    rw [dput_append l k v h']
    exact dget_append_self l k v h'

theorem views_step_mono (cat : Catalog) (stats : BotStats) (sel : Option Course)
    (key k' : Str) :
    viewsGet (course_selection_callback cat stats sel key).1.course_views k' ≥
      viewsGet stats.course_views k' := by
  rw [course_selection_callback]
  cases hfind : dget cat key with
  | none => exact Nat.le_refl _
  | some course =>
    simp only
    by_cases hk : k' = key
    · subst hk
      rw [viewsGet, dget_dput_self]
      rw [Option.getD_some]
      exact Nat.le_succ _
    · rw [viewsGet, dget_dput_other _ _ _ _ hk]
      exact Nat.le_refl _

theorem applySelections_mono (cat : Catalog) (keys : List Str) :
    ∀ (stats : BotStats) (sel : Option Course) (k' : Str),
      viewsGet (applySelections cat (stats, sel) keys).1.course_views k' ≥
        viewsGet stats.course_views k' := by
  induction keys with
  | nil =>
    intro stats sel k'
    exact Nat.le_refl _
  | cons key rest ih =>
    intro stats sel k'
    rw [applySelections, List.foldl_cons]
    have h1 := views_step_mono cat stats sel key k'
    have h2 := ih (course_selection_callback cat stats sel key).1
      (course_selection_callback cat stats sel key).2 k'
    rw [applySelections] at h2
    exact Nat.le_trans h1 h2

/-- C7: selecting a key present in the catalog (of either status) increments
exactly that key's view counter by one and no other; selecting an absent key
changes nothing; over any sequence of selections the per-key counter is
monotone non-decreasing. -/
theorem C7_course_views (cat : Catalog) (stats : BotStats) (sel : Option Course)
    (key : Str) (keys : List Str) (k' : Str) :
    (dhas cat key = true →
      viewsGet (course_selection_callback cat stats sel key).1.course_views key =
        viewsGet stats.course_views key + 1 ∧
      (∀ k2, k2 ≠ key →
        viewsGet (course_selection_callback cat stats sel key).1.course_views k2 =
          viewsGet stats.course_views k2)) ∧
    (dhas cat key = false →
      course_selection_callback cat stats sel key = (stats, sel)) ∧
    viewsGet (applySelections cat (stats, sel) keys).1.course_views k' ≥
      viewsGet stats.course_views k' := by
  refine ⟨?_, ?_, applySelections_mono cat keys stats sel k'⟩
  · intro hk
    rw [dhas_eq_isSome] at hk
    rw [course_selection_callback]
    cases hfind : dget cat key with
    | none =>
      rw [hfind] at hk
      simp at hk
    | some course =>
      constructor
      · simp only
        rw [viewsGet, dget_dput_self, Option.getD_some]
      · intro k2 hk2
        simp only
        rw [viewsGet, dget_dput_other _ _ _ _ hk2]
        rfl
  · intro hk
    rw [dhas_eq_isSome] at hk
    rw [course_selection_callback]
    cases hfind : dget cat key with
    | none => rfl
    | some course =>
      rw [hfind] at hk
      simp at hk

/-- C7 witness: one selection of the single (coming-soon) course `a`
increments its counter from 0 to 1; a selection of the absent key `b`
changes nothing. -/
theorem C7_witness :
    dhas [(("a".toList : Str), Course.mk ("A".toList) 1 statusComingSoon)]
      ("a".toList) = true ∧
    dhas [(("a".toList : Str), Course.mk ("A".toList) 1 statusComingSoon)]
      ("b".toList) = false ∧
    viewsGet (course_selection_callback
        [(("a".toList : Str), Course.mk ("A".toList) 1 statusComingSoon)]
        (BotStats.mk 0 []) none ("a".toList)).1.course_views ("a".toList) =
      viewsGet (BotStats.mk 0 []).course_views ("a".toList) + 1 ∧
    course_selection_callback
        [(("a".toList : Str), Course.mk ("A".toList) 1 statusComingSoon)]
        (BotStats.mk 0 []) none ("b".toList) = (BotStats.mk 0 [], none) := by
  have h1 := C7_course_views
    [(("a".toList : Str), Course.mk ("A".toList) 1 statusComingSoon)]
    (BotStats.mk 0 []) none ("a".toList) [] ("a".toList)
  have h2 := C7_course_views
    [(("a".toList : Str), Course.mk ("A".toList) 1 statusComingSoon)]
    (BotStats.mk 0 []) none ("b".toList) [] ("a".toList)
  exact ⟨by decide, by decide, (h1.1 (by decide)).1, h2.2.1 (by decide)⟩

/-- C8: any action pressed without a selected course aborts the conversation
to the terminal state with the restart error message; with a course selected,
the talk-to-admin action shows its prompt and moves the conversation to the
`FORWARD_TO_ADMIN` (awaiting-admin-message) state. -/
theorem C8_handle_action (action : Str) (course : Course) :
    handle_action none action =
      some (ConvState.conv_end, ActionView.message sessionErrorMsg) ∧
    handle_action (some course) ("talk_admin".toList) =
      some (ConvState.forward_to_admin, ActionView.message talkAdminPrompt) := by
  constructor
  · rfl
  · simp only [handle_action]
    rw [if_pos trivial]

theorem filter_length_split (p : Str → Bool) (l : List Str) :
    (l.filter (fun x => ! p x)).length + (l.filter p).length = l.length := by
  induction l with
  | nil => rfl
  | cons x rest ih =>
    rw [List.filter_cons, List.filter_cons]
    cases hp : p x with
    | true =>
      simp only [hp, Bool.not_true]
      rw [if_neg (by exact Bool.false_ne_true), if_pos trivial]
      rw [List.length_cons, List.length_cons]
      omega
    | false =>
      simp only [hp, Bool.not_false]
      rw [if_pos trivial, if_neg (by exact Bool.false_ne_true)]
      rw [List.length_cons, List.length_cons]
      omega

theorem broadcast_aux (sendOk : Int → Bool) :
    ∀ (ids : List Str) (s f : Nat),
      ids.foldl (fun counts uid =>
          if sendFails sendOk uid then (counts.1, counts.2 + 1)
          else (counts.1 + 1, counts.2)) (s, f) =
        (s + (ids.filter (fun u => ! sendFails sendOk u)).length,
          f + (ids.filter (sendFails sendOk)).length) := by
  intro ids
  induction ids with
  | nil =>
    intro s f
    simp
  | cons u rest ih =>
    intro s f
    rw [List.foldl_cons]
    by_cases hu : sendFails sendOk u = true
    · rw [if_pos hu, ih, List.filter_cons, List.filter_cons]
      simp only [hu, Bool.not_true]
      rw [if_neg (by exact Bool.false_ne_true), if_pos trivial]
      rw [List.length_cons, Prod.mk.injEq]
      exact ⟨rfl, by omega⟩
    · have hu' : sendFails sendOk u = false := Bool.of_not_eq_true hu
      rw [if_neg hu, ih, List.filter_cons, List.filter_cons]
      simp only [hu', Bool.not_false]
      rw [if_pos trivial, if_neg (by exact Bool.false_ne_true)]
      rw [List.length_cons, Prod.mk.injEq]
      exact ⟨by omega, rfl⟩

/-- C9: a broadcast over a roster of n lines attempts every line, keeps
going past failures, and ends with sent + failed = n where failed is exactly
the number of lines whose individual delivery (or id parse) raised. -/
theorem C9_broadcast (userIds : List Str) (sendOk : Int → Bool) :
    (broadcast userIds sendOk).1 + (broadcast userIds sendOk).2 = userIds.length ∧
    (broadcast userIds sendOk).2 = (userIds.filter (sendFails sendOk)).length := by
  have h := broadcast_aux sendOk userIds 0 0
  simp only [broadcast]
  rw [h]
  simp only [Nat.zero_add]
  constructor
  · exact filter_length_split (sendFails sendOk) userIds
  · trivial

/-- C10: every key `add_course` can generate is non-empty and made only of
lowercase letters, digits and underscores; consequently the lowercasing that
`delete_course` applies to its key argument (`pyLower`) is the identity on
such keys. -/
theorem C10_key_charset (c : Catalog) (name priceStr statusStr : Str) (k : Str)
    (h : (add_course c name priceStr statusStr).1 = AddOutcome.added k) :
    k ≠ [] ∧ (∀ ch ∈ k, isKeyChar ch = true) ∧ pyLower k = k := by
  have hk : k = addKey c name := by
    by_cases hstat : pyLower statusStr ≠ statusAvailable ∧
        pyLower statusStr ≠ statusComingSoon
    · simp only [add_course] at h
      rw [if_pos hstat] at h
      exact AddOutcome.noConfusion h
    · cases hp : pythonInt priceStr with
      | none =>
        simp only [add_course, hp] at h
        rw [if_neg hstat] at h
        exact AddOutcome.noConfusion h
      | some q =>
        by_cases hq : q < 0
        · simp only [add_course, hp] at h
          rw [if_neg hstat, if_pos hq] at h
          exact AddOutcome.noConfusion h
        · simp only [add_course, hp] at h
          rw [if_neg hstat, if_neg hq] at h
          have h2 : AddOutcome.added (addKey c name) = AddOutcome.added k := h
          injection h2 with h3
          exact h3.symm
  have hbase : ∀ ch ∈ (if slug name = []
      then "course_".toList ++ natDigits (c.length + 1) else slug name),
      isKeyChar ch = true := by
    by_cases hs : slug name = []
    · rw [if_pos hs]
      intro ch hch
      rcases List.mem_append.mp hch with h1 | h1
      · have hlit : ∀ x ∈ ("course_".toList : Str), isKeyChar x = true := by decide
        exact hlit ch h1
      · exact natDigits_keyChars _ ch h1
    · rw [if_neg hs]
      exact slug_keyChars name
  have hbne : (if slug name = []
      then "course_".toList ++ natDigits (c.length + 1) else slug name) ≠ [] := by
    by_cases hs : slug name = []
    · rw [if_pos hs]
      intro hx
      rcases List.append_eq_nil.mp hx with ⟨_, h154⟩
      exact natDigitsAux_ne_nil (Nat.lt_succ_self _) h154
    · rw [if_neg hs]
      exact hs
  rw [hk, addKey]
  exact ⟨uniqueKey_ne_nil hbne, uniqueKey_keyChars hbase,
    pyLower_keyChars _ (uniqueKey_keyChars hbase)⟩

/-- C10 witness: adding `Ab` generates the key `ab`, which is non-empty,
made of key characters and fixed by lowercasing. -/
theorem C10_witness :
    (add_course [] ("Ab".toList) ("1".toList) ("available".toList)).1 =
      AddOutcome.added ("ab".toList) ∧
    (("ab".toList : Str) ≠ [] ∧
      (∀ ch ∈ ("ab".toList : Str), isKeyChar ch = true) ∧
      pyLower ("ab".toList) = "ab".toList) := by
  refine ⟨by decide, ?_⟩
  exact C10_key_charset [] ("Ab".toList) ("1".toList) ("available".toList)
    ("ab".toList) (by decide)
